import Mathlib

/-!
Verification development for the `coarchi-docx` converter (src/py.py).

The script's pure logic is shallowly embedded here over `List Char`:
text helpers mirror the Python string operations used by the code
(`str.strip`, `str.split('\n')`, `re.split(r'\n(?=# )', ...)`, `str.split()`,
`int(...)`), and each top-level source function becomes a Lean function of
the same name.  Word-processor documents are modelled as lists of
paragraphs carrying a style name and a text, which is the only part of the
external document library the code touches (paragraph text + style name on
read; `add_paragraph` / `add_heading` on write).
-/

/-- Whitespace characters recognised by Python's `str.strip()` /
`str.split()` / `\s` (ASCII subset; the inputs handled here are ASCII). -/
def pyIsSpace (c : Char) : Bool :=
  c = ' ' || c = '\t' || c = '\n' || c = '\r' || c = '\x0b' || c = '\x0c'

/-- Python `str.strip()`: drop leading and trailing whitespace. -/
def pyStrip (l : List Char) : List Char :=
  ((l.dropWhile pyIsSpace).reverse.dropWhile pyIsSpace).reverse

/-- Python `s.startswith(p)` on character lists. -/
def startsWithL : List Char → List Char → Bool
  | [], _ => true
  | _ :: _, [] => false
  | p :: ps, c :: cs => p = c && startsWithL ps cs

/-- Python `str.split('\n')`: split on every newline, keeping empty pieces
(`''.split('\n') = ['']`). -/
def splitOnNl : List Char → List (List Char)
  | [] => [[]]
  | c :: cs =>
    if c = '\n' then [] :: splitOnNl cs
    else
      match splitOnNl cs with
      | [] => [[c]]
      | x :: xs => (c :: x) :: xs

/-- First character is `' '`. -/
def firstIsSpace : List Char → Bool
  | c :: _ => c = ' '
  | [] => false

/-- The list starts with the two characters `"# "` (the lookahead of the
sectioning regex `\n(?=# )`). -/
def isHashSpacePre : List Char → Bool
  | c :: cs => c = '#' && firstIsSpace cs
  | [] => false

/-- Prepend a character to the first piece of a split result. -/
def consHead (c : Char) : List (List Char) → List (List Char)
  | [] => [[c]]
  | x :: xs => (c :: x) :: xs

/-- Python `re.split(r'\n(?=# )', content)`: split at every newline that is
immediately followed by `"# "`; the newline is consumed, the `"# "` stays
with the following piece. -/
def reSplitSections : List Char → List (List Char)
  | [] => [[]]
  | c :: cs =>
    if c = '\n' && isHashSpacePre cs then [] :: reSplitSections cs
    else consHead c (reSplitSections cs)

/-- The record built per section by `parse_content` (the `data` dict):
nine named string fields. -/
structure Record where
  application : List Char
  boxLocation : List Char
  boxType : List Char
  groupType : List Char
  groupTitle : List Char
  boxId : List Char
  boxTitle : List Char
  arrowDirection : List Char
  arrowDescription : List Char
deriving DecidableEq, Repr

/-- The freshly initialised `data` dict of `parse_content` (py.py lines
93-103): constants for Box Location, Box Type, Group Type and Arrow
Direction, empty strings elsewhere. -/
def initData : Record :=
  { application := []
    boxLocation := "External".data
    boxType := "Integration".data
    groupType := "Topic".data
    groupTitle := []
    boxId := []
    boxTitle := []
    arrowDirection := "To".data
    arrowDescription := [] }

/-- One iteration of the per-section line loop of `parse_content` (py.py
lines 106-124): strip the line, then apply the first matching rule. -/
def processLine (d : Record) (l : List Char) : Record :=
  let s := pyStrip l
  if startsWithL "# ".data s then
    { d with application := pyStrip (s.drop 2), groupTitle := "Integrations".data }
  else if startsWithL "## ".data s then
    { d with boxId := pyStrip (s.drop 3) }
  else if startsWithL "Function:".data s then
    { d with boxTitle := pyStrip (s.drop 9) }
  else if startsWithL "Business purpose:".data s then
    { d with arrowDescription := pyStrip (s.drop 17) }
  else d

/-- The record extracted from one section: fold the line loop over the
stripped section's lines starting from `initData`. -/
def sectionData (s : List Char) : Record :=
  (splitOnNl (pyStrip s)).foldl processLine initData

/-- The contribution of one section to `parse_content`'s output: skipped
when blank (py.py line 87), otherwise its extracted record, retained only
when both Application and Box ID are non-empty (py.py line 127). -/
def sectionRecord (s : List Char) : Option Record :=
  if (pyStrip s).isEmpty then none
  else if !(sectionData s).application.isEmpty && !(sectionData s).boxId.isEmpty then
    some (sectionData s)
  else none

/-- `parse_content` (py.py lines 78-130): strip the content, split it into
sections at newlines preceding `"# "`, and collect the retained record of
each section in order. -/
def parse_content (content : List Char) : List Record :=
  (reSplitSections (pyStrip content)).filterMap sectionRecord

/-- Python `'\n'.join(pieces)`. -/
def nlJoin : List (List Char) → List Char
  | [] => []
  | [x] => x
  | x :: xs => x ++ '\n' :: nlJoin xs

/-- The line list seen by `convert_md_to_docx` (py.py lines 12-19):
`f.readlines()` followed by `line.rstrip('\n')` per line — i.e. the
newline-separated pieces of the text, without a final empty piece coming
from a trailing newline. -/
def readlinesL (t : List Char) : List (List Char) :=
  if (splitOnNl t).getLast? = some [] then (splitOnNl t).dropLast else splitOnNl t

/-- A word-processor paragraph as the code uses it: a style name and a
text.  `add_paragraph(text)` yields style `"Normal"`; `add_heading(text,
level=n)` yields style `"Heading n"`. -/
structure Para where
  style : List Char
  text : List Char
deriving DecidableEq, Repr

/-- The paragraph built for one markdown line by `convert_md_to_docx`
(py.py lines 21-35): blank line → empty paragraph; `"# "` / `"## "` /
`"### "` prefix → heading of level 1 / 2 / 3 with the prefix removed;
anything else → plain paragraph with the verbatim line. -/
def lineToPara (l : List Char) : Para :=
  if (pyStrip l).isEmpty then ⟨"Normal".data, []⟩
  else if startsWithL "# ".data l then ⟨"Heading 1".data, l.drop 2⟩
  else if startsWithL "## ".data l then ⟨"Heading 2".data, l.drop 3⟩
  else if startsWithL "### ".data l then ⟨"Heading 3".data, l.drop 4⟩
  else ⟨"Normal".data, l⟩

/-- `convert_md_to_docx` (py.py lines 9-39), document construction part:
one paragraph per input line. -/
def convert_md_to_docx (t : List Char) : List Para :=
  (readlinesL t).map lineToPara

/-- Python `str.split()` with no argument: split on whitespace runs,
dropping empty pieces. -/
def pySplitWs (l : List Char) : List (List Char) :=
  (splitOnPred l).filter (fun p => !p.isEmpty)
where
  splitOnPred : List Char → List (List Char)
    | [] => [[]]
    | c :: cs =>
      if pyIsSpace c then [] :: splitOnPred cs
      else
        match splitOnPred cs with
        | [] => [[c]]
        | x :: xs => (c :: x) :: xs

/-- Shape of the digit part accepted by Python `int`: digits with single
underscores allowed strictly between digits. -/
def digitsOk : List Char → Bool
  | [] => false
  | [c] => c.isDigit
  | c :: '_' :: cs => c.isDigit && digitsOk cs
  | c :: d :: cs => c.isDigit && digitsOk (d :: cs)

/-- Value of the digit part accepted by Python `int`, `none` when
malformed. -/
def digitsVal (ds : List Char) : Option Nat :=
  if digitsOk ds then
    some ((ds.filter (fun c => c.isDigit)).foldl (fun n c => 10 * n + (c.toNat - '0'.toNat)) 0)
  else none

/-- Python `int(s)` on a whitespace-free token: optional sign followed by
decimal digits, `none` (ValueError) otherwise. -/
def pyInt (l : List Char) : Option Int :=
  match l with
  | '-' :: ds => (digitsVal ds).map (fun n => -(n : Int))
  | '+' :: ds => (digitsVal ds).map (fun n => (n : Int))
  | ds => (digitsVal ds).map (fun n => (n : Int))

/-- The heading level parsed from a style name by
`extract_markdown_from_docx` (py.py line 54): `int(name.split()[-1])`,
`none` when the try block raises ValueError or IndexError. -/
def styleLevel (style : List Char) : Option Int :=
  match (pySplitWs style).getLast? with
  | none => none
  | some tok => pyInt tok

/-- Python `'#' * level` (empty for non-positive level). -/
def hashes (level : Int) : List Char :=
  List.replicate level.toNat '#'

/-- The markdown line emitted for one paragraph by
`extract_markdown_from_docx` (py.py lines 48-59): heading styles with a
parseable trailing integer get `'#' * level + ' '` prefixed, everything
else is the paragraph text unchanged. -/
def extractPara (p : Para) : List Char :=
  if startsWithL "Heading".data p.style then
    match styleLevel p.style with
    | some level => hashes level ++ ' ' :: p.text
    | none => p.text
  else p.text

/-- `extract_markdown_from_docx` (py.py lines 42-61): per-paragraph lines
joined with newlines. -/
def extract_markdown_from_docx (doc : List Para) : List Char :=
  nlJoin (doc.map extractPara)

/-- CSV field escaping produced by `csv.writer` with delimiter `';'` and
default minimal quoting: a field containing the delimiter, a quote or a
line-terminator character is wrapped in quotes with inner quotes doubled. -/
def escapeField (f : List Char) : List Char :=
  if f.any (fun c => c = ';' || c = '"' || c = '\r' || c = '\n') then
    '"' :: (f.foldr (fun c acc => if c = '"' then '"' :: '"' :: acc else c :: acc) []) ++ ['"']
  else f

/-- One CSV row: `';'`-joined escaped fields plus the default `"\r\n"`
line terminator. -/
def csvRow (fields : List (List Char)) : List Char :=
  joinSemi (fields.map escapeField) ++ ['\r', '\n']
where
  joinSemi : List (List Char) → List Char
    | [] => []
    | [x] => x
    | x :: xs => x ++ ';' :: joinSemi xs

/-- The fixed header list of `write_csv` (py.py lines 136-146). -/
def csvHeaders : List (List Char) :=
  ["Application".data, "Box Location".data, "Box Type".data, "Group Type".data,
   "Group Title".data, "Box ID".data, "Box Title".data, "Arrow Direction".data,
   "Arrow Description".data]

/-- The values of one record in header order, as `csv.DictWriter` emits
them (py.py lines 152-165). -/
def recordFields (r : Record) : List (List Char) :=
  [r.application, r.boxLocation, r.boxType, r.groupType, r.groupTitle,
   r.boxId, r.boxTitle, r.arrowDirection, r.arrowDescription]

/-- `write_csv` (py.py lines 133-165): the header row, then one data row
per record appended by the loop in input order. -/
def write_csv (data : List Record) : List Char :=
  data.foldl (fun acc r => acc ++ csvRow (recordFields r)) (csvRow csvHeaders)

/-- Python `str.lower()` (ASCII). -/
def pyLower (l : List Char) : List Char :=
  l.map Char.toLower

/-- The extension part of `os.path.splitext(p)`: the suffix of the
basename from its last dot, provided a non-dot character precedes that dot
in the basename; otherwise empty. -/
def extOf (p : List Char) : List Char :=
  let b := (p.reverse.takeWhile (fun c => c ≠ '/')).reverse
  let rest := b.dropWhile (fun c => c = '.')
  if rest.any (fun c => c = '.') then
    '.' :: (rest.reverse.takeWhile (fun c => c ≠ '.')).reverse
  else []

/-- `main` (py.py lines 168-225), orchestration outcome: the exit code
and the names of the output files written, in write order, as a function
of whether the input path exists and of the path itself.  The `.md`
branch writes the intermediate document, the extracted markdown and the
CSV; the `.docx` branch the markdown and the CSV; the `.txt` branch the
CSV alone; a missing path or an unsupported extension exits 1 before any
file is written. -/
def mainOutcome (pathExists : Bool) (path : List Char) : Nat × List (List Char) :=
  if !pathExists then (1, [])
  else
    let ext := pyLower (extOf path)
    if ext = ".md".data then
      (0, ["output/docx.docx".data, "output/md.md".data, "output/csv.csv".data])
    else if ext = ".docx".data then
      (0, ["output/md.md".data, "output/csv.csv".data])
    else if ext = ".txt".data then
      (0, ["output/csv.csv".data])
    else (1, [])

/-- The list contains an internal sectioning boundary: a newline
immediately followed by `"# "`. -/
def hasNlHash : List Char → Bool
  | [] => false
  | c :: cs => (c = '\n' && isHashSpacePre cs) || hasNlHash cs

/-- The Application value a line contributes, if any: the trimmed
remainder after `"# "` on the stripped line. -/
def hashVal (l : List Char) : Option (List Char) :=
  if startsWithL "# ".data (pyStrip l) then some (pyStrip ((pyStrip l).drop 2))
  else none

/-- The Box ID value a line contributes, if any: the trimmed remainder
after `"## "` on the stripped line. -/
def hash2Val (l : List Char) : Option (List Char) :=
  if startsWithL "## ".data (pyStrip l) then some (pyStrip ((pyStrip l).drop 3))
  else none

/-- Last-write-wins accumulation of the optional per-line values. -/
def lastSome (f : List Char → Option (List Char)) (ls : List (List Char))
    (dflt : List Char) : List Char :=
  ls.foldl (fun acc l => (f l).getD acc) dflt

/-- Invariant maintained by the per-section line loop: the four constant
fields keep their initial values, and Group Title is `"Integrations"`
whenever Application has been set to something non-empty. -/
def recordInv (d : Record) : Prop :=
  d.boxLocation = "External".data ∧ d.boxType = "Integration".data
  ∧ d.groupType = "Topic".data ∧ d.arrowDirection = "To".data
  ∧ (d.application ≠ [] → d.groupTitle = "Integrations".data)

/-- The heading test stated by the specification, `^#{1,3}\s`: one to
three leading `'#'` characters followed by a whitespace character. -/
def matchesHashWs : List Char → Bool
  | '#' :: '#' :: '#' :: c :: _ => pyIsSpace c
  | '#' :: '#' :: c :: _ => pyIsSpace c
  | '#' :: c :: _ => pyIsSpace c
  | _ => false

/-! ## Helper lemmas -/

lemma dropWhile_eq_cons_head {p : Char → Bool} {l cs : List Char} {c : Char}
    (h : l.dropWhile p = c :: cs) : p c = false := by
  have hw : l.dropWhile p ≠ [] := by simp [h]
  have := List.head_dropWhile_not p l hw
  simpa [h] using this

lemma dropWhile_idem (p : Char → Bool) (l : List Char) :
    (l.dropWhile p).dropWhile p = l.dropWhile p := by
  cases h : l.dropWhile p with
  | nil => simp
  | cons c cs => simp [List.dropWhile_cons, dropWhile_eq_cons_head h]

lemma dropWhile_getLast? {p : Char → Bool} {l : List Char}
    (h : l.dropWhile p ≠ []) : (l.dropWhile p).getLast? = l.getLast? := by
  obtain ⟨t, ht⟩ := List.dropWhile_suffix (l := l) p
  conv_rhs => rw [← ht]
  exact (List.getLast?_append_of_ne_nil t h).symm

lemma isEmpty_false_iff (l : List Char) : l.isEmpty = false ↔ l ≠ [] := by
  cases l <;> simp

lemma isEmpty_true_iff (l : List Char) : l.isEmpty = true ↔ l = [] := by
  cases l <;> simp

lemma pyStrip_dropWhile (l : List Char) :
    (pyStrip l).dropWhile pyIsSpace = pyStrip l := by
  by_cases h : (l.dropWhile pyIsSpace).reverse.dropWhile pyIsSpace = []
  · simp [pyStrip, h]
  · have h2 : ((l.dropWhile pyIsSpace).reverse.dropWhile pyIsSpace).getLast?
        = (l.dropWhile pyIsSpace).reverse.getLast? := dropWhile_getLast? h
    rw [List.getLast?_reverse] at h2
    have h3 : l.dropWhile pyIsSpace ≠ [] := by
      intro he
      rw [he] at h
      simp at h
    obtain ⟨c, cs, hcc⟩ := List.exists_cons_of_ne_nil h3
    have hc : pyIsSpace c = false := dropWhile_eq_cons_head hcc
    rw [hcc] at h2
    simp only [List.head?_cons] at h2
    have h4 : (pyStrip l).head? = some c := by
      unfold pyStrip
      rw [List.head?_reverse, hcc]
      exact h2
    cases hps : pyStrip l with
    | nil => simp [hps] at h4
    | cons d ds =>
      rw [hps] at h4
      have hd : d = c := by simpa using h4
      subst hd
      simp [List.dropWhile_cons, hc]

lemma pyStrip_idem (l : List Char) : pyStrip (pyStrip l) = pyStrip l := by
  show (((pyStrip l).dropWhile pyIsSpace).reverse.dropWhile pyIsSpace).reverse = pyStrip l
  rw [pyStrip_dropWhile]
  unfold pyStrip
  rw [List.reverse_reverse, dropWhile_idem]

lemma startsWithL_eq_append {p l : List Char} (h : startsWithL p l = true) :
    l = p ++ l.drop p.length := by
  induction p generalizing l with
  | nil => simp
  | cons a p ih =>
    cases l with
    | nil => simp [startsWithL] at h
    | cons c cs =>
      simp only [startsWithL, Bool.and_eq_true, decide_eq_true_eq] at h
      obtain ⟨rfl, h2⟩ := h
      simpa using ih h2

lemma dropWhile_ne_nil_of_mem {p : Char → Bool} {l : List Char} {c : Char}
    (hc : c ∈ l) (hpc : p c = false) : l.dropWhile p ≠ [] := by
  induction l with
  | nil => simp at hc
  | cons a t ih =>
    rw [List.dropWhile_cons]
    split
    · next hpa =>
      cases List.mem_cons.mp hc with
      | inl h => subst h; simp [hpc] at hpa
      | inr h => exact ih h
    · simp

lemma mem_dropWhile_of_mem {p : Char → Bool} {l : List Char} {c : Char}
    (hc : c ∈ l) (hpc : p c = false) : c ∈ l.dropWhile p := by
  induction l with
  | nil => simp at hc
  | cons a t ih =>
    rw [List.dropWhile_cons]
    split
    · next hpa =>
      cases List.mem_cons.mp hc with
      | inl h => subst h; simp [hpc] at hpa
      | inr h => exact ih h
    · exact hc

lemma pyStrip_ne_nil_of_mem {l : List Char} {c : Char}
    (hc : c ∈ l) (hpc : pyIsSpace c = false) : pyStrip l ≠ [] := by
  unfold pyStrip
  intro h
  rw [List.reverse_eq_nil_iff] at h
  have h1 : c ∈ l.dropWhile pyIsSpace := mem_dropWhile_of_mem hc hpc
  have h2 : c ∈ (l.dropWhile pyIsSpace).reverse := by simpa using h1
  exact dropWhile_ne_nil_of_mem h2 hpc h

lemma write_csv_foldl (rs : List Record) (init : List Char) :
    rs.foldl (fun acc r => acc ++ csvRow (recordFields r)) init
      = init ++ (rs.map (fun r => csvRow (recordFields r))).flatten := by
  induction rs generalizing init with
  | nil => simp
  | cons r rs ih => simp [ih, List.append_assoc]

/-! ## Claim theorems -/

/-- C2: on the four-line input `"# AppOne\n## Box1\nFunction: Sync
customers\nBusiness purpose: Keep CRM updated"`, `parse_content` returns
exactly one record with Application `"AppOne"`, Box ID `"Box1"`, Box Title
`"Sync customers"`, Arrow Description `"Keep CRM updated"`, Group Title
`"Integrations"`, Box Location `"External"`, Box Type `"Integration"`,
Group Type `"Topic"` and Arrow Direction `"To"`. -/
theorem c2_example_record :
    parse_content "# AppOne\n## Box1\nFunction: Sync customers\nBusiness purpose: Keep CRM updated".data =
      [{ application := "AppOne".data
         boxLocation := "External".data
         boxType := "Integration".data
         groupType := "Topic".data
         groupTitle := "Integrations".data
         boxId := "Box1".data
         boxTitle := "Sync customers".data
         arrowDirection := "To".data
         arrowDescription := "Keep CRM updated".data }] := by
  decide

/-- C5: `write_csv` writes the fixed 9-column semicolon-delimited header
row (Application; Box Location; Box Type; Group Type; Group Title; Box ID;
Box Title; Arrow Direction; Arrow Description) followed by one data row
per record in input order, and the header row alone when the record
sequence is empty. -/
theorem c5_write_csv_shape (data : List Record) :
    write_csv data
      = csvRow csvHeaders ++ (data.map (fun r => csvRow (recordFields r))).flatten
    ∧ csvRow csvHeaders
      = "Application;Box Location;Box Type;Group Type;Group Title;Box ID;Box Title;Arrow Direction;Arrow Description".data
        ++ ['\r', '\n']
    ∧ write_csv []
      = "Application;Box Location;Box Type;Group Type;Group Title;Box ID;Box Title;Arrow Direction;Arrow Description".data
        ++ ['\r', '\n']
    ∧ csvHeaders.length = 9
    ∧ ∀ r : Record, (recordFields r).length = 9 := by
  refine ⟨?_, by decide, by decide, by decide, fun r => rfl⟩
  unfold write_csv
  exact write_csv_foldl data _

/-- C8: the orchestrator exits 0 exactly when the input path exists and
its lowercased extension is `.md`, `.docx` or `.txt`; it exits 1 when the
path is missing or the extension unsupported, writing no output file; in
particular a `.csv` input path yields exit code 1 and no output files. -/
theorem c8_main_exit_codes (pathExists : Bool) (path : List Char) :
    ((mainOutcome pathExists path).1 = 0 ↔
      pathExists = true ∧
        pyLower (extOf path) ∈ [".md".data, ".docx".data, ".txt".data])
    ∧ ((mainOutcome pathExists path).1 = 1 ↔
      (pathExists = false ∨
        pyLower (extOf path) ∉ [".md".data, ".docx".data, ".txt".data]))
    ∧ ((mainOutcome pathExists path).1 = 1 → (mainOutcome pathExists path).2 = [])
    ∧ (pyLower (extOf path) = ".csv".data →
        (mainOutcome pathExists path).1 = 1 ∧ (mainOutcome pathExists path).2 = []) := by
  cases pathExists with
  | false => simp [mainOutcome]
  | true =>
    by_cases h1 : pyLower (extOf path) = ".md".data
    · simp [mainOutcome, h1]
    · by_cases h2 : pyLower (extOf path) = ".docx".data
      · simp [mainOutcome, h1, h2]
      · by_cases h3 : pyLower (extOf path) = ".txt".data
        · simp [mainOutcome, h1, h2, h3]
        · simp [mainOutcome, h1, h2, h3]

/-- Closed witness for C8: the concrete path `input.csv` has extension
`.csv`, exits with code 1 and writes no output files. -/
theorem c8_main_exit_codes_witness :
    pyLower (extOf "input.csv".data) = ".csv".data
    ∧ (mainOutcome true "input.csv".data).1 = 1
    ∧ (mainOutcome true "input.csv".data).2 = [] :=
  ⟨by decide,
   ((c8_main_exit_codes true "input.csv".data).2.2.2 (by decide)).1,
   ((c8_main_exit_codes true "input.csv".data).2.2.2 (by decide)).2⟩

/-- C10: within a section the line loop strips each line before testing
the rules, so surrounded-by-whitespace field lines (`"  ## Box1"`,
`"  Function: x"`) still set their fields, while the sectioning split only
fires at line-initial `"# "`: an indented `"  # C"` line starts no new
section and still overwrites Application inside the current one. -/
theorem c10_line_stripping :
    (∀ (d : Record) (l : List Char), processLine d l = processLine d (pyStrip l))
    ∧ parse_content "# App\n  ## Box1\n  Function: x".data
      = [{ initData with
             application := "App".data
             groupTitle := "Integrations".data
             boxId := "Box1".data
             boxTitle := "x".data }]
    ∧ reSplitSections (pyStrip "# A\n## B\n  # C".data) = ["# A\n## B\n  # C".data]
    ∧ parse_content "# A\n## B\n  # C".data
      = [{ initData with
             application := "C".data
             groupTitle := "Integrations".data
             boxId := "B".data }] := by
  refine ⟨fun d l => ?_, by decide, by decide, by decide⟩
  simp only [processLine, pyStrip_idem]

/-- C6 counterexample: the line `"#\tfoo"` matches the claimed pattern
`^#{1,3}\s` (tab is `\s`) yet `convert_md_to_docx` makes it a plain
`Normal` paragraph with the `#` kept as literal text, not a level-1
heading. -/
theorem c6_counterexample :
    matchesHashWs ('#' :: '\t' :: "foo".data) = true
    ∧ convert_md_to_docx ('#' :: '\t' :: "foo".data)
      = [⟨"Normal".data, '#' :: '\t' :: "foo".data⟩]
    ∧ "Normal".data ≠ "Heading 1".data := by
  exact ⟨by decide, by decide, by decide⟩

/-- C7: a paragraph whose heading-style name has no parseable trailing
integer is no error during extraction: its text is emitted unprefixed and
the surrounding paragraphs are extracted normally. -/
theorem c7_malformed_heading_style (p : Para) (pre post : List Para)
    (h1 : startsWithL "Heading".data p.style = true)
    (h2 : styleLevel p.style = none) :
    extractPara p = p.text
    ∧ extract_markdown_from_docx (pre ++ p :: post)
      = nlJoin (pre.map extractPara ++ p.text :: post.map extractPara) := by
  have he : extractPara p = p.text := by
    simp [extractPara, h1, h2]
  exact ⟨he, by simp [extract_markdown_from_docx, he]⟩

/-- Closed witness for C7: style `"Heading X"` starts with `Heading`, has
no parseable trailing integer, and the document around it extracts
normally with the malformed paragraph's text unprefixed. -/
theorem c7_malformed_heading_style_witness :
    startsWithL "Heading".data "Heading X".data = true
    ∧ styleLevel "Heading X".data = none
    ∧ extract_markdown_from_docx
        [⟨"Heading 1".data, "a".data⟩, ⟨"Heading X".data, "hello".data⟩,
         ⟨"Normal".data, "b".data⟩]
      = "# a\nhello\nb".data :=
  ⟨by decide, by decide, by
    have h := c7_malformed_heading_style ⟨"Heading X".data, "hello".data⟩
      [⟨"Heading 1".data, "a".data⟩] [⟨"Normal".data, "b".data⟩]
      (by decide) (by decide)
    exact h.2.trans (by decide)⟩

lemma sectionRecord_eq_some {s : List Char} {r : Record}
    (h : sectionRecord s = some r) :
    r = sectionData s ∧ r.application ≠ [] ∧ r.boxId ≠ [] := by
  unfold sectionRecord at h
  split_ifs at h with h1 h2
  rw [Bool.and_eq_true, Bool.not_eq_true', Bool.not_eq_true'] at h2
  obtain ⟨ha, hb⟩ := h2
  have hr2 : sectionData s = r := Option.some.inj h
  subst hr2
  exact ⟨rfl, (isEmpty_false_iff _).mp ha, (isEmpty_false_iff _).mp hb⟩

/-- C1: every record retained by `parse_content` has non-empty Application
and Box ID, and a section whose extraction leaves either field empty
contributes no record. -/
theorem c1_retained_nonempty (content : List Char) (r : Record)
    (hr : r ∈ parse_content content) :
    (r.application ≠ [] ∧ r.boxId ≠ [])
    ∧ ∀ s : List Char,
        (sectionData s).application = [] ∨ (sectionData s).boxId = [] →
        sectionRecord s = none := by
  constructor
  · obtain ⟨s, _, hs⟩ := List.mem_filterMap.mp hr
    exact (sectionRecord_eq_some hs).2
  · intro s hs
    unfold sectionRecord
    split_ifs with h1 h2
    · rfl
    · rw [Bool.and_eq_true, Bool.not_eq_true', Bool.not_eq_true'] at h2
      cases hs with
      | inl h => exact absurd h ((isEmpty_false_iff _).mp h2.1)
      | inr h => exact absurd h ((isEmpty_false_iff _).mp h2.2)
    · rfl

/-- Closed witness for C1: a concrete retained record has non-empty
Application and Box ID. -/
theorem c1_retained_nonempty_witness :
    (({ initData with
          application := "App".data
          groupTitle := "Integrations".data
          boxId := "B7".data } : Record) ∈ parse_content "# App\n## B7".data)
    ∧ ("App".data ≠ ([] : List Char) ∧ "B7".data ≠ ([] : List Char)) :=
  ⟨by decide,
   (c1_retained_nonempty "# App\n## B7".data
      { initData with
          application := "App".data
          groupTitle := "Integrations".data
          boxId := "B7".data }
      (by decide)).1⟩

lemma processLine_inv {d : Record} (l : List Char) (h : recordInv d) :
    recordInv (processLine d l) := by
  simp only [processLine]
  split_ifs
  · exact ⟨h.1, h.2.1, h.2.2.1, h.2.2.2.1, fun _ => rfl⟩
  · exact ⟨h.1, h.2.1, h.2.2.1, h.2.2.2.1, h.2.2.2.2⟩
  · exact ⟨h.1, h.2.1, h.2.2.1, h.2.2.2.1, h.2.2.2.2⟩
  · exact ⟨h.1, h.2.1, h.2.2.1, h.2.2.2.1, h.2.2.2.2⟩
  · exact h

lemma foldl_processLine_inv (ls : List (List Char)) {d : Record}
    (h : recordInv d) : recordInv (ls.foldl processLine d) := by
  induction ls generalizing d with
  | nil => exact h
  | cons l ls ih => exact ih (processLine_inv l h)

/-- C9: every record retained by `parse_content` carries the constants Box
Location `"External"`, Box Type `"Integration"`, Group Type `"Topic"`,
Arrow Direction `"To"`, and — because retention forces a non-empty
Application, which is only ever set together with Group Title — Group
Title `"Integrations"`. -/
theorem c9_constant_fields (content : List Char) (r : Record)
    (hr : r ∈ parse_content content) :
    r.boxLocation = "External".data ∧ r.boxType = "Integration".data
    ∧ r.groupType = "Topic".data ∧ r.arrowDirection = "To".data
    ∧ r.groupTitle = "Integrations".data := by
  obtain ⟨s, _, hs⟩ := List.mem_filterMap.mp hr
  obtain ⟨hr1, ha, _⟩ := sectionRecord_eq_some hs
  subst hr1
  have hinv : recordInv (sectionData s) :=
    foldl_processLine_inv _ ⟨rfl, rfl, rfl, rfl, fun hne => absurd rfl hne⟩
  exact ⟨hinv.1, hinv.2.1, hinv.2.2.1, hinv.2.2.2.1, hinv.2.2.2.2 ha⟩

/-- Closed witness for C9: a concrete retained record carries all five
constant field values. -/
theorem c9_constant_fields_witness :
    (({ initData with
          application := "Z".data
          groupTitle := "Integrations".data
          boxId := "Q".data
          boxTitle := "f".data } : Record) ∈ parse_content "# Z\n## Q\nFunction: f".data)
    ∧ ("Integrations".data = "Integrations".data) :=
  ⟨by decide,
   ((c9_constant_fields "# Z\n## Q\nFunction: f".data
      { initData with
          application := "Z".data
          groupTitle := "Integrations".data
          boxId := "Q".data
          boxTitle := "f".data }
      (by decide)).2.2.2.2).symm ▸ rfl⟩

/-- C6 (amended): a line whose leading `#` run of length 1-3 is followed
by a space character (`' '` specifically — not every `\s` whitespace)
becomes a heading at the level equal to the run length; a `### ` line is
never mistaken for level 1 because the two-character prefix `"# "` cannot
match it; lines with four or more leading `#` characters fall through to
plain-paragraph treatment with the `#` characters kept as literal text. -/
theorem c6_heading_levels (l : List Char) :
    (startsWithL "# ".data l = true → lineToPara l = ⟨"Heading 1".data, l.drop 2⟩)
    ∧ (startsWithL "## ".data l = true → lineToPara l = ⟨"Heading 2".data, l.drop 3⟩)
    ∧ (startsWithL "### ".data l = true → lineToPara l = ⟨"Heading 3".data, l.drop 4⟩)
    ∧ (startsWithL "####".data l = true → lineToPara l = ⟨"Normal".data, l⟩) := by
  refine ⟨fun h => ?_, fun h => ?_, fun h => ?_, fun h => ?_⟩
  · have hl := startsWithL_eq_append h
    have hne : (pyStrip l).isEmpty = false := by
      rw [isEmpty_false_iff]
      exact pyStrip_ne_nil_of_mem (c := '#')
        (by rw [hl]; exact List.mem_append_left _ (by decide)) (by decide)
    simp [lineToPara, hne, h]
  · have hl := startsWithL_eq_append h
    have hne : (pyStrip l).isEmpty = false := by
      rw [isEmpty_false_iff]
      exact pyStrip_ne_nil_of_mem (c := '#')
        (by rw [hl]; exact List.mem_append_left _ (by decide)) (by decide)
    have h1 : startsWithL "# ".data l = false := by rw [hl]; rfl
    simp [lineToPara, hne, h, h1]
  · have hl := startsWithL_eq_append h
    have hne : (pyStrip l).isEmpty = false := by
      rw [isEmpty_false_iff]
      exact pyStrip_ne_nil_of_mem (c := '#')
        (by rw [hl]; exact List.mem_append_left _ (by decide)) (by decide)
    have h1 : startsWithL "# ".data l = false := by rw [hl]; rfl
    have h2 : startsWithL "## ".data l = false := by rw [hl]; rfl
    simp [lineToPara, hne, h, h1, h2]
  · have hl := startsWithL_eq_append h
    have hne : (pyStrip l).isEmpty = false := by
      rw [isEmpty_false_iff]
      exact pyStrip_ne_nil_of_mem (c := '#')
        (by rw [hl]; exact List.mem_append_left _ (by decide)) (by decide)
    have h1 : startsWithL "# ".data l = false := by rw [hl]; rfl
    have h2 : startsWithL "## ".data l = false := by rw [hl]; rfl
    have h3 : startsWithL "### ".data l = false := by rw [hl]; rfl
    simp [lineToPara, hne, h1, h2, h3]

/-- Closed witness for C6: a `"## "` line becomes a level-2 heading and a
`"#### "` line stays a plain paragraph. -/
theorem c6_heading_levels_witness :
    startsWithL "## ".data "## Sub".data = true
    ∧ lineToPara "## Sub".data = ⟨"Heading 2".data, "Sub".data⟩
    ∧ startsWithL "####".data "#### deep".data = true
    ∧ lineToPara "#### deep".data = ⟨"Normal".data, "#### deep".data⟩ :=
  ⟨by decide,
   ((c6_heading_levels "## Sub".data).2.1 (by decide)).trans (by decide),
   by decide,
   ((c6_heading_levels "#### deep".data).2.2.2 (by decide)).trans (by decide)⟩

lemma splitOnNl_no_nl {l : List Char} : ∀ x ∈ splitOnNl l, '\n' ∉ x := by
  induction l with
  | nil =>
    intro x hx
    simp only [splitOnNl, List.mem_singleton] at hx
    subst hx
    simp
  | cons c cs ih =>
    intro x hx
    simp only [splitOnNl] at hx
    split_ifs at hx with hc
    · rcases List.mem_cons.mp hx with rfl | hx2
      · simp
      · exact ih x hx2
    · rcases h : splitOnNl cs with _ | ⟨y, ys⟩
      · rw [h] at hx
        simp only [List.mem_singleton] at hx
        subst hx
        intro hin
        simp only [List.mem_singleton] at hin
        exact hc hin.symm
      · rw [h] at hx
        rcases List.mem_cons.mp hx with rfl | hx2
        · intro hin
          rcases List.mem_cons.mp hin with he | hin2
          · exact hc he.symm
          · exact ih y (by rw [h]; exact List.mem_cons_self y ys) hin2
        · exact ih x (by rw [h]; exact List.mem_cons_of_mem y hx2)

lemma readlinesL_no_nl {t x : List Char} (hx : x ∈ readlinesL t) : '\n' ∉ x := by
  unfold readlinesL at hx
  split_ifs at hx
  · exact splitOnNl_no_nl x (List.dropLast_subset _ hx)
  · exact splitOnNl_no_nl x hx

lemma splitOnNl_single {x : List Char} (h : '\n' ∉ x) : splitOnNl x = [x] := by
  induction x with
  | nil => rfl
  | cons c cs ih =>
    have hc : ¬ (c = '\n') := fun he => h (by rw [he]; exact List.mem_cons_self _ _)
    have hcs : '\n' ∉ cs := fun hin => h (List.mem_cons_of_mem c hin)
    simp only [splitOnNl]
    rw [if_neg hc, ih hcs]

lemma splitOnNl_append_nl {x : List Char} (rest : List Char) (h : '\n' ∉ x) :
    splitOnNl (x ++ '\n' :: rest) = x :: splitOnNl rest := by
  induction x with
  | nil =>
    show splitOnNl ('\n' :: rest) = [] :: splitOnNl rest
    simp [splitOnNl]
  | cons c cs ih =>
    have hc : ¬ (c = '\n') := fun he => h (by rw [he]; exact List.mem_cons_self _ _)
    have hcs : '\n' ∉ cs := fun hin => h (List.mem_cons_of_mem c hin)
    show splitOnNl (c :: (cs ++ '\n' :: rest)) = (c :: cs) :: splitOnNl rest
    simp only [splitOnNl]
    rw [if_neg hc, ih hcs]

lemma splitOnNl_nlJoin : ∀ {xs : List (List Char)}, xs ≠ [] →
    (∀ x ∈ xs, '\n' ∉ x) → splitOnNl (nlJoin xs) = xs
  | [], h, _ => absurd rfl h
  | [x], _, hnl => by
    show splitOnNl x = [x]
    exact splitOnNl_single (hnl x (by simp))
  | x :: y :: ys, _, hnl => by
    show splitOnNl (x ++ '\n' :: nlJoin (y :: ys)) = x :: y :: ys
    rw [splitOnNl_append_nl _ (hnl x (by simp))]
    rw [splitOnNl_nlJoin (by simp) (fun z hz => hnl z (List.mem_cons_of_mem x hz))]

lemma extract_lineToPara (l : List Char) :
    extractPara (lineToPara l) = if (pyStrip l).isEmpty then [] else l := by
  unfold lineToPara
  split_ifs with h0 h1 h2 h3
  · rfl
  · have hl : l = '#' :: ' ' :: l.drop 2 := by simpa using startsWithL_eq_append h1
    have he : extractPara ⟨"Heading 1".data, l.drop 2⟩ = '#' :: ' ' :: l.drop 2 := rfl
    rw [he]
    exact hl.symm
  · have hl : l = '#' :: '#' :: ' ' :: l.drop 3 := by simpa using startsWithL_eq_append h2
    have he : extractPara ⟨"Heading 2".data, l.drop 3⟩ = '#' :: '#' :: ' ' :: l.drop 3 := rfl
    rw [he]
    exact hl.symm
  · have hl : l = '#' :: '#' :: '#' :: ' ' :: l.drop 4 := by simpa using startsWithL_eq_append h3
    have he : extractPara ⟨"Heading 3".data, l.drop 4⟩ = '#' :: '#' :: '#' :: ' ' :: l.drop 4 := rfl
    rw [he]
    exact hl.symm
  · rfl

lemma convert_extract_lines (t : List Char) (h : readlinesL t ≠ []) :
    splitOnNl (extract_markdown_from_docx (convert_md_to_docx t))
      = (readlinesL t).map (fun l => if (pyStrip l).isEmpty then [] else l) := by
  unfold extract_markdown_from_docx convert_md_to_docx
  have hmap : ((readlinesL t).map lineToPara).map extractPara
      = (readlinesL t).map (fun l => if (pyStrip l).isEmpty then [] else l) := by
    rw [List.map_map]
    exact List.map_congr_left (fun x _ => extract_lineToPara x)
  rw [hmap]
  apply splitOnNl_nlJoin
  · simpa using h
  · intro x hx
    obtain ⟨l0, hl0, rfl⟩ := List.mem_map.mp hx
    by_cases hb : (pyStrip l0).isEmpty = true
    · rw [if_pos hb]
      simp
    · rw [if_neg hb]
      exact readlinesL_no_nl hl0

/-- C4: converting markdown to a document and extracting markdown back
reproduces each non-blank input line verbatim (same heading prefix or same
plain text); a blank line comes back as the empty line. -/
theorem c4_round_trip (t : List Char) (i : Nat) (h : i < (readlinesL t).length) :
    ((pyStrip ((readlinesL t)[i])).isEmpty = false →
      (splitOnNl (extract_markdown_from_docx (convert_md_to_docx t)))[i]?
        = some ((readlinesL t)[i]))
    ∧ ((pyStrip ((readlinesL t)[i])).isEmpty = true →
      (splitOnNl (extract_markdown_from_docx (convert_md_to_docx t)))[i]? = some []) := by
  have hne : readlinesL t ≠ [] := by
    intro he
    rw [he] at h
    simp at h
  rw [convert_extract_lines t hne]
  constructor
  · intro hb
    rw [isEmpty_false_iff] at hb
    rw [List.getElem?_map, List.getElem?_eq_getElem h]
    simp [hb]
  · intro hb
    rw [isEmpty_true_iff] at hb
    rw [List.getElem?_map, List.getElem?_eq_getElem h]
    simp [hb]

/-- Closed witness for C4: the heading line of the concrete input
`"# T\nbody"` is reproduced verbatim by the round trip. -/
theorem c4_round_trip_witness :
    (pyStrip "# T".data).isEmpty = false
    ∧ (splitOnNl (extract_markdown_from_docx (convert_md_to_docx "# T\nbody".data)))[0]?
      = some "# T".data := by
  refine ⟨by decide, ?_⟩
  have h := (c4_round_trip "# T\nbody".data 0 (by decide)).1 (by decide)
  exact h.trans (by decide)

lemma consHead_ne_nil (c : Char) (r : List (List Char)) : consHead c r ≠ [] := by
  cases r <;> simp [consHead]

lemma reSplit_ne_nil (l : List Char) : reSplitSections l ≠ [] := by
  cases l with
  | nil => simp [reSplitSections]
  | cons c cs =>
    simp only [reSplitSections]
    split_ifs
    · simp
    · exact consHead_ne_nil c (reSplitSections cs)

lemma consHead_nlJoin (c : Char) (r : List (List Char)) :
    nlJoin (consHead c r) = c :: nlJoin r := by
  match r with
  | [] => rfl
  | [x] => rfl
  | x :: y :: ys => rfl

lemma reSplit_nlJoin (l : List Char) : nlJoin (reSplitSections l) = l := by
  induction l with
  | nil => rfl
  | cons c cs ih =>
    simp only [reSplitSections]
    split_ifs with hb
    · rw [Bool.and_eq_true] at hb
      have hc2 : c = '\n' := of_decide_eq_true hb.1
      subst hc2
      cases hr : reSplitSections cs with
      | nil => exact absurd hr (reSplit_ne_nil cs)
      | cons x xs =>
        show nlJoin ([] :: x :: xs) = '\n' :: cs
        show ([] : List Char) ++ '\n' :: nlJoin (x :: xs) = '\n' :: cs
        rw [List.nil_append, ← hr, ih]
    · rw [consHead_nlJoin, ih]

lemma consHead_headD (c : Char) (r : List (List Char)) :
    (consHead c r).headD [] = c :: r.headD [] := by
  cases r <;> rfl

lemma firstIsSpace_head (cs : List Char) :
    firstIsSpace ((reSplitSections cs).headD []) = firstIsSpace cs := by
  match cs with
  | [] => rfl
  | c :: cs' =>
    simp only [reSplitSections]
    split_ifs with hb
    · rw [Bool.and_eq_true] at hb
      have hc2 : c = '\n' := of_decide_eq_true hb.1
      subst hc2
      rfl
    · rw [consHead_headD]
      rfl

lemma isHashSpacePre_head (cs : List Char) :
    isHashSpacePre ((reSplitSections cs).headD []) = isHashSpacePre cs := by
  match cs with
  | [] => rfl
  | c :: cs' =>
    simp only [reSplitSections]
    split_ifs with hb
    · rw [Bool.and_eq_true] at hb
      have hc2 : c = '\n' := of_decide_eq_true hb.1
      subst hc2
      rfl
    · rw [consHead_headD]
      show (decide (c = '#') && firstIsSpace ((reSplitSections cs').headD [])) =
        (decide (c = '#') && firstIsSpace cs')
      rw [firstIsSpace_head cs']

lemma hasNlHash_sections : ∀ {l s : List Char}, s ∈ reSplitSections l → hasNlHash s = false := by
  intro l
  induction l with
  | nil =>
    intro s hs
    simp only [reSplitSections, List.mem_singleton] at hs
    subst hs
    rfl
  | cons c cs ih =>
    intro s hs
    simp only [reSplitSections] at hs
    split_ifs at hs with hb
    · rcases List.mem_cons.mp hs with rfl | hs2
      · rfl
      · exact ih hs2
    · cases hr : reSplitSections cs with
      | nil => exact absurd hr (reSplit_ne_nil cs)
      | cons x xs =>
        rw [hr] at hs
        simp only [consHead] at hs
        rcases List.mem_cons.mp hs with rfl | hs2
        · have hx : hasNlHash x = false := ih (by rw [hr]; exact List.mem_cons_self x xs)
          have hxh : isHashSpacePre x = isHashSpacePre cs := by
            have h3 := isHashSpacePre_head cs
            rw [hr] at h3
            simpa using h3
          show ((c = '\n' && isHashSpacePre x) || hasNlHash x) = false
          by_cases hc : c = '\n'
          · subst hc
            have hcs : isHashSpacePre cs = false := by
              cases hIs : isHashSpacePre cs
              · rfl
              · exact absurd (by simp [hIs]) hb
            simp [hxh, hcs, hx]
          · simp [hc, hx]
        · exact ih (by rw [hr]; exact List.mem_cons_of_mem x hs2)

lemma sections_tail_hash : ∀ {l : List Char} (s : List Char),
    s ∈ (reSplitSections l).drop 1 → isHashSpacePre s = true := by
  intro l
  induction l with
  | nil =>
    intro s hs
    simp [reSplitSections] at hs
  | cons c cs ih =>
    intro s hs
    simp only [reSplitSections] at hs
    split_ifs at hs with hb
    · rw [List.drop_one, List.tail_cons] at hs
      rw [Bool.and_eq_true] at hb
      cases hr : reSplitSections cs with
      | nil => exact absurd hr (reSplit_ne_nil cs)
      | cons x xs =>
        rw [hr] at hs
        rcases List.mem_cons.mp hs with rfl | hs2
        · have h3 := isHashSpacePre_head cs
          rw [hr] at h3
          simp only [List.headD_cons] at h3
          rw [h3, hb.2]
        · exact ih s (by rw [hr, List.drop_one, List.tail_cons]; exact hs2)
    · cases hr : reSplitSections cs with
      | nil => exact absurd hr (reSplit_ne_nil cs)
      | cons x xs =>
        rw [hr] at hs
        simp only [consHead] at hs
        rw [List.drop_one, List.tail_cons] at hs
        exact ih s (by rw [hr, List.drop_one, List.tail_cons]; exact hs)

lemma not_hash_and_hash2 {s : List Char} (h1 : startsWithL "# ".data s = true)
    (h2 : startsWithL "## ".data s = true) : False := by
  have e1 := startsWithL_eq_append h1
  have e2 := startsWithL_eq_append h2
  rw [e1] at e2
  injection e2 with _ e3
  injection e3 with e4 _
  exact absurd e4 (by decide)

lemma processLine_application (d : Record) (l : List Char) :
    (processLine d l).application = (hashVal l).getD d.application := by
  by_cases h1 : startsWithL "# ".data (pyStrip l) = true
  · simp [processLine, hashVal, h1]
  · simp only [processLine, hashVal, h1, if_false, if_neg h1]
    split_ifs <;> rfl

lemma processLine_boxId (d : Record) (l : List Char) :
    (processLine d l).boxId = (hash2Val l).getD d.boxId := by
  by_cases h1 : startsWithL "# ".data (pyStrip l) = true
  · have h2 : ¬ (startsWithL "## ".data (pyStrip l) = true) :=
      fun h2 => not_hash_and_hash2 h1 h2
    simp [processLine, hash2Val, h1, h2]
  · by_cases h2 : startsWithL "## ".data (pyStrip l) = true
    · simp [processLine, hash2Val, h1, h2]
    · simp only [processLine, hash2Val, if_neg h1, if_neg h2]
      split_ifs <;> rfl

lemma foldl_application (ls : List (List Char)) (d : Record) :
    (ls.foldl processLine d).application = lastSome hashVal ls d.application := by
  induction ls generalizing d with
  | nil => rfl
  | cons l ls ih =>
    show ((ls.foldl processLine (processLine d l)).application)
      = lastSome hashVal ls ((hashVal l).getD d.application)
    rw [ih, processLine_application]

lemma foldl_boxId (ls : List (List Char)) (d : Record) :
    (ls.foldl processLine d).boxId = lastSome hash2Val ls d.boxId := by
  induction ls generalizing d with
  | nil => rfl
  | cons l ls ih =>
    show ((ls.foldl processLine (processLine d l)).boxId)
      = lastSome hash2Val ls ((hash2Val l).getD d.boxId)
    rw [ih, processLine_boxId]

lemma lastSome_eq_dflt (f : List Char → Option (List Char)) :
    ∀ (ls : List (List Char)) (dflt : List Char),
    (∀ y ∈ ls, f y = none) → lastSome f ls dflt = dflt := by
  intro ls
  induction ls with
  | nil => intro dflt _; rfl
  | cons a ls ih =>
    intro dflt hall
    show lastSome f ls ((f a).getD dflt) = dflt
    rw [hall a (List.mem_cons_self a ls)]
    exact ih dflt (fun y hy => hall y (List.mem_cons_of_mem a hy))

lemma lastSome_of_exists (f : List Char → Option (List Char)) :
    ∀ (ls : List (List Char)) (dflt : List Char),
    (∃ y ∈ ls, f y ≠ none) → ∃ l ∈ ls, f l = some (lastSome f ls dflt) := by
  intro ls
  induction ls with
  | nil =>
    intro dflt h
    obtain ⟨y, hy, _⟩ := h
    cases hy
  | cons a ls ih =>
    intro dflt h
    by_cases hls : ∃ y ∈ ls, f y ≠ none
    · obtain ⟨l, hl, hfl⟩ := ih ((f a).getD dflt) hls
      exact ⟨l, List.mem_cons_of_mem a hl, hfl⟩
    · push_neg at hls
      obtain ⟨y, hy, hfy⟩ := h
      rcases List.mem_cons.mp hy with rfl | hy2
      · cases hfa : f y with
        | none => exact absurd hfa hfy
        | some v =>
          refine ⟨y, List.mem_cons_self y ls, ?_⟩
          show f y = some (lastSome f ls ((f y).getD dflt))
          rw [hfa]
          show some v = some (lastSome f ls v)
          rw [lastSome_eq_dflt f ls v (fun z hz => hls z hz)]
      · exact absurd hfy (by simpa using hls y hy2)

lemma pyStrip_getLast_not_space (l : List Char) (c : Char)
    (h : (pyStrip l).getLast? = some c) : pyIsSpace c = false := by
  unfold pyStrip at h
  rw [List.getLast?_reverse] at h
  cases hX : (l.dropWhile pyIsSpace).reverse.dropWhile pyIsSpace with
  | nil => rw [hX] at h; cases h
  | cons d ds =>
    rw [hX] at h
    simp only [List.head?_cons, Option.some.injEq] at h
    subst h
    exact dropWhile_eq_cons_head hX

lemma hashVal_nonempty {l v : List Char} (h : hashVal l = some v) : v ≠ [] := by
  unfold hashVal at h
  split_ifs at h with h1
  have hl : pyStrip l = '#' :: ' ' :: (pyStrip l).drop 2 := by
    simpa using startsWithL_eq_append h1
  have hv : pyStrip ((pyStrip l).drop 2) = v := Option.some.inj h
  subst hv
  cases ht : (pyStrip l).drop 2 with
  | nil =>
    have hlast : (pyStrip l).getLast? = some ' ' := by
      rw [hl, ht]
      rfl
    exact absurd (pyStrip_getLast_not_space l ' ' hlast) (by decide)
  | cons c0 ts =>
    have hts : c0 :: ts ≠ [] := by simp
    have hlast : (pyStrip l).getLast? = some ((c0 :: ts).getLast hts) := by
      rw [hl, ht, List.getLast?_cons_cons, List.getLast?_cons_cons]
      exact List.getLast?_eq_getLast _ hts
    have hnsp := pyStrip_getLast_not_space l _ hlast
    exact pyStrip_ne_nil_of_mem (List.getLast_mem hts) hnsp

lemma hash2Val_nonempty {l v : List Char} (h : hash2Val l = some v) : v ≠ [] := by
  unfold hash2Val at h
  split_ifs at h with h1
  have hl : pyStrip l = '#' :: '#' :: ' ' :: (pyStrip l).drop 3 := by
    simpa using startsWithL_eq_append h1
  have hv : pyStrip ((pyStrip l).drop 3) = v := Option.some.inj h
  subst hv
  cases ht : (pyStrip l).drop 3 with
  | nil =>
    have hlast : (pyStrip l).getLast? = some ' ' := by
      rw [hl, ht]
      rfl
    exact absurd (pyStrip_getLast_not_space l ' ' hlast) (by decide)
  | cons c0 ts =>
    have hts : c0 :: ts ≠ [] := by simp
    have hlast : (pyStrip l).getLast? = some ((c0 :: ts).getLast hts) := by
      rw [hl, ht, List.getLast?_cons_cons, List.getLast?_cons_cons,
        List.getLast?_cons_cons]
      exact List.getLast?_eq_getLast _ hts
    have hnsp := pyStrip_getLast_not_space l _ hlast
    exact pyStrip_ne_nil_of_mem (List.getLast_mem hts) hnsp

/-- C3: the parser splits the trimmed input exactly at newlines that
immediately precede a `"# "` header line (the sections joined by newlines
reproduce the trimmed input, every section after the first starts with
`"# "`, and no section contains an internal boundary), and every section
containing an Application-setting (`# `) line and a Box-ID-setting (`## `)
line contributes exactly one record, whose Application and Box ID are the
values of the last such lines (later occurrences overwrite earlier
ones). -/
theorem c3_sectioning_last_values (content : List Char) :
    nlJoin (reSplitSections (pyStrip content)) = pyStrip content
    ∧ (∀ s ∈ (reSplitSections (pyStrip content)).drop 1, isHashSpacePre s = true)
    ∧ (∀ s ∈ reSplitSections (pyStrip content), hasNlHash s = false)
    ∧ parse_content content = (reSplitSections (pyStrip content)).filterMap sectionRecord
    ∧ (∀ s ∈ reSplitSections (pyStrip content),
        (∃ x ∈ splitOnNl (pyStrip s), startsWithL "# ".data (pyStrip x) = true) →
        (∃ x ∈ splitOnNl (pyStrip s), startsWithL "## ".data (pyStrip x) = true) →
        sectionRecord s = some (sectionData s)
        ∧ (sectionData s).application = lastSome hashVal (splitOnNl (pyStrip s)) []
        ∧ (sectionData s).boxId = lastSome hash2Val (splitOnNl (pyStrip s)) []) := by
  refine ⟨reSplit_nlJoin _, fun s hs => sections_tail_hash s hs,
    fun s hs => hasNlHash_sections hs, rfl, ?_⟩
  intro s _ hex1 hex2
  have happ : (sectionData s).application = lastSome hashVal (splitOnNl (pyStrip s)) [] := by
    unfold sectionData
    rw [foldl_application]
    rfl
  have hbox : (sectionData s).boxId = lastSome hash2Val (splitOnNl (pyStrip s)) [] := by
    unfold sectionData
    rw [foldl_boxId]
    rfl
  obtain ⟨x1, hx1, hsw1⟩ := hex1
  have hfx1 : hashVal x1 ≠ none := by
    unfold hashVal
    rw [if_pos hsw1]
    simp
  obtain ⟨l1, _, hfl1⟩ := lastSome_of_exists hashVal (splitOnNl (pyStrip s)) [] ⟨x1, hx1, hfx1⟩
  have happne : lastSome hashVal (splitOnNl (pyStrip s)) [] ≠ [] := hashVal_nonempty hfl1
  obtain ⟨x2, hx2, hsw2⟩ := hex2
  have hfx2 : hash2Val x2 ≠ none := by
    unfold hash2Val
    rw [if_pos hsw2]
    simp
  obtain ⟨l2, _, hfl2⟩ := lastSome_of_exists hash2Val (splitOnNl (pyStrip s)) [] ⟨x2, hx2, hfx2⟩
  have hboxne : lastSome hash2Val (splitOnNl (pyStrip s)) [] ≠ [] := hash2Val_nonempty hfl2
  have hstrip : (pyStrip s).isEmpty = false := by
    rw [isEmpty_false_iff]
    intro he
    rw [he] at hx1
    simp only [splitOnNl, List.mem_singleton] at hx1
    subst hx1
    exact absurd hsw1 (by decide)
  refine ⟨?_, happ, hbox⟩
  unfold sectionRecord
  split_ifs with h1 h2
  · exact absurd h1 (by simp [hstrip])
  · rfl
  · have hcond : (!(sectionData s).application.isEmpty && !(sectionData s).boxId.isEmpty) = true := by
      rw [Bool.and_eq_true, Bool.not_eq_true', Bool.not_eq_true']
      exact ⟨(isEmpty_false_iff _).mpr (by rw [happ]; exact happne),
        (isEmpty_false_iff _).mpr (by rw [hbox]; exact hboxne)⟩
    exact absurd hcond h2

/-- Closed witness for C3: the single-section input `"# A\n## B1\n## B2"`
yields exactly one record and its Box ID is the value of the last `## `
line. -/
theorem c3_sectioning_last_values_witness :
    ("# A\n## B1\n## B2".data ∈ reSplitSections (pyStrip "# A\n## B1\n## B2".data))
    ∧ sectionRecord "# A\n## B1\n## B2".data = some (sectionData "# A\n## B1\n## B2".data)
    ∧ (sectionData "# A\n## B1\n## B2".data).boxId = "B2".data
    ∧ (sectionData "# A\n## B1\n## B2".data).application = "A".data := by
  refine ⟨by decide, ?_, by decide, by decide⟩
  exact ((c3_sectioning_last_values "# A\n## B1\n## B2".data).2.2.2.2
    "# A\n## B1\n## B2".data (by decide) (by decide) (by decide)).1
